import Mathlib

/-!
# Snake game (`src/game.js`): session state, tick and controls

A shallow embedding of the game logic of `game.js`.  The script keeps its session in
top-level `let` variables; here they are the fields of `State` and every function of the
script becomes a function on `State`.

Modelling conventions.

* JavaScript numbers that hold integers (coordinates, score, best score, slider value) are
  `Int`; the arithmetic on them in the script is exact for integers below `2^53`.
* `Math.floor(Math.random() * COLS)` is an integer in `0 .. COLS-1`.  The sequence of
  random cells that `spawnFood` draws is a parameter `rand : Draws`; the state keeps the
  number of cells drawn so far.
* `spawnFood` is a `do ... while` loop that may run forever.  It takes a bound `fuel` on the
  number of iterations and yields `none` when the loop has not exited within that bound.
* Calls to collaborators that do not touch the session (canvas drawing, score display, tones,
  `localStorage.setItem`) are recorded, in order, in the field `log`; they are taken to
  return normally.  The mute button and the resize handler do not touch the session and are
  left out.
* The interval timer is represented by its period in milliseconds: `intervalId = some ms`
  when a timer is active (a truthy handle in the script), `none` for `null`.
-/

namespace Snake

/-- Number of columns of the grid (`const COLS = 20`). -/
def COLS : Nat := 20

/-- Number of rows of the grid (`const ROWS = 20`). -/
def ROWS : Nat := 20

/-- An object `{ x, y }`: a grid cell or a direction vector. -/
structure Cell where
  x : Int
  y : Int
deriving DecidableEq, Repr

/-- Text shown on the toggle button (`toggleBtn.textContent`). -/
inductive ButtonText where
  | initial
  | start
  | pause
  | resume
deriving DecidableEq, Repr

/-- Calls to the collaborators of the game logic, recorded in program order. -/
inductive Event where
  | draw
  | drawGameOver
  | updateScoreUI
  | playEat
  | playStart
  | playPause (resuming : Bool)
  | playGameOver
  | setItem (value : Int)
deriving DecidableEq, Repr

/-- The random cells drawn by `spawnFood`: entry `i` is the pair
`(Math.floor(Math.random() * COLS), Math.floor(Math.random() * ROWS))` of the `i`-th
iteration of its loop, counted over the whole run. -/
abbrev Draws := Nat → Fin COLS × Fin ROWS

/-- The top-level variables of the script. -/
structure State where
  snake : List Cell
  direction : Cell
  nextDirection : Cell
  food : Cell
  intervalId : Option Int
  running : Bool
  score : Int
  highScore : Int
  /-- Content of the `localStorage` slot `snake_highscore` (`none`: never written). -/
  stored : Option Int
  /-- Value of the speed slider (`speed.value`). -/
  speed : Int
  toggleText : ButtonText
  /-- Number of random cells consumed so far. -/
  drawn : Nat
  log : List Event
deriving DecidableEq, Repr

/-- The cell of a random draw. -/
def Draws.cell (rand : Draws) (i : Nat) : Cell :=
  ⟨((rand i).1.val : Int), ((rand i).2.val : Int)⟩

/-- The variables as the script initialises them, before its first `resetGame()`:
`highScore` is read from the persisted slot, `0` when the slot is empty. -/
def boot (stored : Option Int) (speed : Int) : State :=
  { snake := []
    direction := ⟨1, 0⟩
    nextDirection := ⟨1, 0⟩
    food := ⟨0, 0⟩
    intervalId := none
    running := false
    score := 0
    highScore := stored.getD 0
    stored := stored
    speed := speed
    toggleText := .initial
    drawn := 0
    log := [] }

/-- Show score and best score (`updateScoreUI()`): the session is untouched. -/
def updateScoreUI (s : State) : State :=
  { s with log := s.log ++ [.updateScoreUI] }

/-- Interval of the tick timer for a slider value: `Math.round(260 - val * 12)`. -/
def sliderToMs (val : Int) : Int := 260 - val * 12

/-- Membership test `snake.some(seg => seg.x === pos.x && seg.y === pos.y)`. -/
def isOnSnake (s : State) (pos : Cell) : Bool :=
  s.snake.any fun seg => decide (seg.x = pos.x) && decide (seg.y = pos.y)

/-- Rejection sampling of the food cell: draw a cell, repeat while it is on the snake, then
store it in `food`.  `fuel` bounds the number of iterations. -/
def spawnFood (rand : Draws) : Nat → State → Option State
  | 0, _ => none
  | fuel + 1, s =>
    let pos := rand.cell s.drawn
    let s1 := { s with drawn := s.drawn + 1 }
    if isOnSnake s1 pos then spawnFood rand fuel s1
    else some { s1 with food := pos }

/-- Re-initialise snake, directions and score, place the food, repaint. -/
def resetGame (rand : Draws) (fuel : Nat) (s : State) : Option State :=
  let s1 := { s with
    snake := [⟨((COLS / 2 : Nat) : Int), ((ROWS / 2 : Nat) : Int)⟩]
    direction := ⟨1, 0⟩
    nextDirection := ⟨1, 0⟩
    score := 0 }
  (spawnFood rand fuel s1).map fun s2 =>
    { s2 with log := s2.log ++ [.draw, .updateScoreUI] }

/-- Cancel a timer that may be active and create the tick timer. -/
def start (s : State) : State :=
  { s with
    intervalId := some (sliderToMs s.speed)
    running := true
    toggleText := .pause
    log := s.log ++ [.playStart] }

/-- Clear the running flag and the timer. -/
def stop (s : State) : State :=
  let s1 := { s with running := false }
  if s1.intervalId.isSome then { s1 with intervalId := none } else s1

/-- Stop the timer, keeping the session. -/
def pause (s : State) : State :=
  let s1 := stop s
  { s1 with toggleText := .resume, log := s1.log ++ [.playPause false] }

/-- The start / pause / resume button and the space key. -/
def toggle (s : State) : State :=
  if !s.running && decide (s.score = 0) && decide (s.snake.length = 1) then start s
  else if s.running then pause s else start s

/-- End of the game: stop, record a new best score, show the overlay. -/
def gameOver (s : State) : State :=
  let s1 := stop s
  let s2 :=
    if s1.score > s1.highScore then
      { s1 with
        highScore := s1.score
        stored := some s1.score
        log := s1.log ++ [.setItem s1.score] }
    else s1
  { s2 with
    toggleText := .start
    log := s2.log ++ [.draw, .drawGameOver, .playGameOver] }

/-- The wall test of `step`:
`newHead.x < 0 || newHead.x >= COLS || newHead.y < 0 || newHead.y >= ROWS`. -/
def hitsWall (p : Cell) : Bool :=
  decide (p.x < 0) || decide (p.x ≥ (COLS : Int)) || decide (p.y < 0) || decide (p.y ≥ (ROWS : Int))

/-- One tick.  `none`: the call does not return normally (`snake[0]` is undefined on an empty
snake and reading its `x` throws, or the loop of `spawnFood` has not exited within `fuel`
iterations). -/
def step (rand : Draws) (fuel : Nat) (s : State) : Option State :=
  let s1 := { s with direction := s.nextDirection }
  match s1.snake with
  | [] => none
  | head :: _ =>
    let newHead : Cell := ⟨head.x + s1.direction.x, head.y + s1.direction.y⟩
    if hitsWall newHead then some (gameOver s1)
    else if isOnSnake s1 newHead then some (gameOver s1)
    else
      let s2 := { s1 with snake := newHead :: s1.snake }
      if decide (newHead.x = s2.food.x) && decide (newHead.y = s2.food.y) then
        let s3 := { s2 with score := s2.score + 1 }
        (spawnFood rand fuel s3).map fun s4 =>
          { s4 with log := s4.log ++ [.updateScoreUI, .playEat, .draw] }
      else
        some { s2 with snake := s2.snake.dropLast, log := s2.log ++ [.draw] }

/-- Exact reversal test `a.x === -b.x && a.y === -b.y`. -/
def opposite (a b : Cell) : Bool :=
  decide (a.x = -b.x) && decide (a.y = -b.y)

/-- Request a direction for the next tick; a reversal of the current direction is ignored. -/
def setNextDirection (dir : Cell) (s : State) : State :=
  if opposite dir s.direction then s else { s with nextDirection := dir }

/-- The restart button and the `r` key:
`const wasRunning = running; stop(); resetGame(); if (wasRunning) start();`. -/
def restart (rand : Draws) (fuel : Nat) (s : State) : Option State :=
  let wasRunning := s.running
  let s1 := stop s
  (resetGame rand fuel s1).map fun s2 => if wasRunning then start s2 else s2

/-- The speed slider: the new value is in `speed.value`, and `if (running) start()`. -/
def speedInput (val : Int) (s : State) : State :=
  let s1 := { s with speed := val }
  if s1.running then start s1 else s1

/-- The four directions the keyboard and the on-screen buttons pass to `setNextDirection`. -/
def isUnit (d : Cell) : Bool :=
  decide (d = ⟨1, 0⟩) || decide (d = ⟨-1, 0⟩) || decide (d = ⟨0, 1⟩) || decide (d = ⟨0, -1⟩)

/-- The cell `step` computes as the new head: head plus pending direction. -/
def newHead (s : State) : Option Cell :=
  s.snake.head?.map fun head => ⟨head.x + s.nextDirection.x, head.y + s.nextDirection.y⟩

/-- The things that happen to a session: the timer callback, a direction request, the toggle
button, the restart button, a move of the speed slider, and a bare `updateScoreUI()` call
(the script makes one at the end of its initialisation). -/
inductive Action where
  | tick (fuel : Nat)
  | turn (dir : Cell)
  | toggle
  | restart (fuel : Nat)
  | speed (val : Int)
  | refresh
deriving DecidableEq, Repr

/-- Effect of an action on the session. -/
def fire (rand : Draws) : Action → State → Option State
  | .tick fuel, s => step rand fuel s
  | .turn dir, s => some (setNextDirection dir s)
  | .toggle, s => some (toggle s)
  | .restart fuel, s => restart rand fuel s
  | .speed val, s => some (speedInput val s)
  | .refresh, s => some (updateScoreUI s)

/-- No restriction on the actions: `step` may be called in any state and `setNextDirection`
with any argument. -/
def anyAction : Action → State → Bool := fun _ _ => true

/-- Direction requests carry one of the four unit vectors; no other restriction. -/
def unitTurns : Action → State → Bool
  | .turn dir, _ => isUnit dir
  | _, _ => true

/-- The actions as the page produces them: the timer callback runs only while the session is
running with an active timer, and direction requests carry one of the four unit vectors.  The
bare `updateScoreUI()` call, which the page makes once while loading, is admitted at any time:
it only adds to the log. -/
def asScripted : Action → State → Bool
  | .tick _, s => s.running && s.intervalId.isSome
  | .turn dir, _ => isUnit dir
  | _, _ => true

/-- States reachable from a `resetGame()` call on a state satisfying `init`, through actions
that `allowed` admits. -/
inductive Reachable (rand : Draws) (init : State → Prop) (allowed : Action → State → Bool) :
    State → Prop where
  | reset {s0 s : State} (fuel : Nat) :
      init s0 → resetGame rand fuel s0 = some s → Reachable rand init allowed s
  | act {s s' : State} (a : Action) :
      Reachable rand init allowed s → allowed a s = true → fire rand a s = some s' →
      Reachable rand init allowed s'

/-- The state is that of a page load: the script's initial values, for some content of the
persisted slot and some slider position. -/
def isBoot (s0 : State) : Prop := ∃ stored speed, s0 = boot stored speed

/-- Run a list of actions, refusing any action that `allowed` does not admit. -/
def run (rand : Draws) (allowed : Action → State → Bool) : List Action → State → Option State
  | [], s => some s
  | a :: rest, s =>
    if allowed a s then (fire rand a s).bind (run rand allowed rest) else none

/-- A cell of the grid: `0 ≤ x < COLS` and `0 ≤ y < ROWS`. -/
def inGrid (c : Cell) : Prop :=
  0 ≤ c.x ∧ c.x < (COLS : Int) ∧ 0 ≤ c.y ∧ c.y < (ROWS : Int)

instance (c : Cell) : Decidable (inGrid c) := by
  unfold inGrid; infer_instance

/-- Two cells at Manhattan distance exactly 1. -/
def adjacent (a b : Cell) : Prop :=
  (a.x - b.x).natAbs + (a.y - b.y).natAbs = 1

instance (a b : Cell) : Decidable (adjacent a b) := by
  unfold adjacent; infer_instance

/-- The values written to the persisted slot so far, oldest first: the arguments of the
recorded `localStorage.setItem` calls. -/
def writes (s : State) : List Int :=
  s.log.filterMap fun e =>
    match e with
    | .setItem value => some value
    | _ => none

/-- The food is off the snake and on the grid. -/
def foodFree (s : State) : Prop := s.food ∉ s.snake ∧ inGrid s.food

/-- The snake is a non-empty duplicate-free sequence of grid cells in which consecutive cells
are at Manhattan distance 1. -/
def wellFormed (s : State) : Prop :=
  s.snake ≠ [] ∧ s.snake.Nodup ∧ (∀ c ∈ s.snake, inGrid c) ∧ s.snake.Chain' adjacent

/-- The stopped session shows the button text `Start` that `gameOver()` sets, with a snake of
at least two cells: a session that ended in game over and has not been reset. -/
def gameOverShown (s : State) : Bool :=
  !s.running && decide (s.toggleText = .start) && decide (2 ≤ s.snake.length)

/-- The actions as the page produces them, except that the toggle button is not used on a
session that ended in game over. -/
def noResume : Action → State → Bool
  | .toggle, s => !gameOverShown s
  | a, s => asScripted a s

/-- The current direction is the one the head last moved in: head minus second cell. -/
def aligned (s : State) : Prop :=
  ∀ h c rest, s.snake = h :: c :: rest → s.direction = ⟨h.x - c.x, h.y - c.y⟩

/-! ## Sample sessions -/

/-- Draws whose first cell is `(11,10)`, right in front of the initial snake, and whose later
cells are all `(0,0)`. -/
def drawsAhead : Draws := fun i =>
  if i = 0 then (⟨11, by decide⟩, ⟨10, by decide⟩) else (⟨0, by decide⟩, ⟨0, by decide⟩)

/-- Draws that are all the corner cell `(0,0)`. -/
def drawsCorner : Draws := fun _ => (⟨0, by decide⟩, ⟨0, by decide⟩)

/-- The initialisation of the script, `resetGame(); updateScoreUI();`, on the variables as
the script declares them. -/
def pageLoad (rand : Draws) (fuel : Nat) (stored : Option Int) (speed : Int) : Option State :=
  (resetGame rand fuel (boot stored speed)).map updateScoreUI

/-- A page load (empty persisted slot, slider at 10) followed by the given actions, each
admitted only as the page can produce it. -/
def play (rand : Draws) (acts : List Action) : Option State :=
  (pageLoad rand 1 none 10).bind (run rand asScripted acts)

/-- The session right after a page load with `drawsCorner`. -/
def fresh : State :=
  { snake := [⟨10, 10⟩]
    direction := ⟨1, 0⟩
    nextDirection := ⟨1, 0⟩
    food := ⟨0, 0⟩
    intervalId := none
    running := false
    score := 0
    highScore := 0
    stored := none
    speed := 10
    toggleText := .initial
    drawn := 1
    log := [.draw, .updateScoreUI, .updateScoreUI] }

/-- A running session in mid-game: with `drawsAhead`, the session after start, two ticks (the
first one eats) and a request to turn down. -/
def midGame : State :=
  { snake := [⟨12, 10⟩, ⟨11, 10⟩]
    direction := ⟨1, 0⟩
    nextDirection := ⟨0, 1⟩
    food := ⟨0, 0⟩
    intervalId := some 140
    running := true
    score := 1
    highScore := 0
    stored := none
    speed := 10
    toggleText := .pause
    drawn := 2
    log := [.draw, .updateScoreUI, .updateScoreUI, .playStart, .updateScoreUI, .playEat, .draw,
      .draw] }

/-- With `drawsCorner`: the running session after start and nine ticks to the right, its
one-cell snake on the right-hand column. -/
def atWall : State :=
  { snake := [⟨19, 10⟩]
    direction := ⟨1, 0⟩
    nextDirection := ⟨1, 0⟩
    food := ⟨0, 0⟩
    intervalId := some 140
    running := true
    score := 0
    highScore := 0
    stored := none
    speed := 10
    toggleText := .pause
    drawn := 1
    log := [.draw, .updateScoreUI, .updateScoreUI, .playStart] ++ List.replicate 9 .draw }

/-- The session `atWall` after one more tick, which runs into the wall. -/
def crashed : State :=
  { atWall with
    intervalId := none
    running := false
    toggleText := .start
    log := atWall.log ++ [.draw, .drawGameOver, .playGameOver] }

/-- Actions leading to `reversing`: start, a tick that eats, eight more ticks to the right-hand
column, up one cell, a turn to the right whose tick runs into the wall, then a request to
turn down and the toggle button. -/
def reversalTrace : List Action :=
  [.toggle] ++ List.replicate 9 (.tick 1)
    ++ [.turn ⟨0, -1⟩, .tick 1, .turn ⟨1, 0⟩, .tick 1, .turn ⟨0, 1⟩, .toggle]

/-- The session after `reversalTrace` with `drawsAhead`: running, the snake has just moved up
from `(19,10)` to `(19,9)`, and the pending direction is down. -/
def reversing : State :=
  { snake := [⟨19, 9⟩, ⟨19, 10⟩]
    direction := ⟨1, 0⟩
    nextDirection := ⟨0, 1⟩
    food := ⟨0, 0⟩
    intervalId := some 140
    running := true
    score := 1
    highScore := 1
    stored := some 1
    speed := 10
    toggleText := .pause
    drawn := 2
    log := [.draw, .updateScoreUI, .updateScoreUI, .playStart, .updateScoreUI, .playEat]
      ++ List.replicate 10 .draw
      ++ [.setItem 1, .draw, .drawGameOver, .playGameOver, .playStart] }

/-- Draws, several of which land on the snake: `(10,10)`, `(11,10)`, `(10,10)`, `(11,10)`,
`(11,10)`, `(12,10)`, `(10,10)`, then `(0,0)` for ever. -/
def drawsBusy : Draws := fun i =>
  match i with
  | 0 => (⟨10, by decide⟩, ⟨10, by decide⟩)
  | 1 => (⟨11, by decide⟩, ⟨10, by decide⟩)
  | 2 => (⟨10, by decide⟩, ⟨10, by decide⟩)
  | 3 => (⟨11, by decide⟩, ⟨10, by decide⟩)
  | 4 => (⟨11, by decide⟩, ⟨10, by decide⟩)
  | 5 => (⟨12, by decide⟩, ⟨10, by decide⟩)
  | 6 => (⟨10, by decide⟩, ⟨10, by decide⟩)
  | _ => (⟨0, by decide⟩, ⟨0, by decide⟩)

/-- Actions after the first `resetGame()` of a page load: the `updateScoreUI()` call, a
restart, start, two ticks that eat (each respawn first draws a cell on the snake), a turn
down and a tick that moves without eating. -/
def busyTrace : List Action :=
  [.refresh, .restart 2, .toggle, .tick 2, .tick 2, .turn ⟨0, 1⟩, .tick 1]

/-- The session after `busyTrace` with `drawsBusy`: a running three-cell snake. -/
def busy : State :=
  { snake := [⟨12, 11⟩, ⟨12, 10⟩, ⟨11, 10⟩]
    direction := ⟨0, 1⟩
    nextDirection := ⟨0, 1⟩
    food := ⟨0, 0⟩
    intervalId := some 140
    running := true
    score := 2
    highScore := 0
    stored := none
    speed := 10
    toggleText := .pause
    drawn := 8
    log := [.draw, .updateScoreUI, .updateScoreUI, .draw, .updateScoreUI, .playStart,
      .updateScoreUI, .playEat, .draw, .updateScoreUI, .playEat, .draw, .draw] }

/-- A three-cell snake with four cells drawn so far: under `drawsBusy` the next three draws,
`(11,10)`, `(12,10)` and `(10,10)`, are all on the snake. -/
def crowded : State :=
  { midGame with snake := [⟨12, 10⟩, ⟨11, 10⟩, ⟨10, 10⟩], drawn := 4 }

/-- A snake of length 1 at `(5,5)` heading right with the food at `(6,5)`. -/
def beforeFood : State :=
  { fresh with snake := [⟨5, 5⟩], food := ⟨6, 5⟩, running := true, intervalId := some 140 }

/-- A snake of four cells curled in a square, about to move onto its own last cell. -/
def tailChase : State :=
  { midGame with
    snake := [⟨5, 5⟩, ⟨5, 6⟩, ⟨6, 6⟩, ⟨6, 5⟩]
    direction := ⟨0, -1⟩
    nextDirection := ⟨1, 0⟩
    score := 3 }

/-! ## Basic facts about the operations -/

theorem isOnSnake_iff (s : State) (pos : Cell) : isOnSnake s pos = true ↔ pos ∈ s.snake := by
  unfold isOnSnake
  rw [List.any_eq_true]
  constructor
  · rintro ⟨seg, hmem, hseg⟩
    have h2 : seg = pos := by
      cases seg; cases pos
      simp only [Bool.and_eq_true, decide_eq_true_eq] at hseg
      simp only [Cell.mk.injEq]
      exact hseg
    exact h2 ▸ hmem
  · intro hmem
    exact ⟨pos, hmem, by simp⟩

theorem isOnSnake_false_iff (s : State) (pos : Cell) :
    isOnSnake s pos = false ↔ pos ∉ s.snake := by
  rw [← isOnSnake_iff, Bool.not_eq_true]

theorem hitsWall_iff (p : Cell) : hitsWall p = true ↔ ¬ inGrid p := by
  unfold hitsWall inGrid
  simp only [Bool.or_eq_true, decide_eq_true_eq]
  constructor
  · intro h; omega
  · intro h; omega

theorem hitsWall_false_iff (p : Cell) : hitsWall p = false ↔ inGrid p := by
  rw [← Bool.not_eq_true, hitsWall_iff, not_not]

theorem inGrid_cell (rand : Draws) (i : Nat) : inGrid (rand.cell i) := by
  have h1 := (rand i).1.isLt
  have h2 := (rand i).2.isLt
  unfold inGrid Draws.cell
  simp only [COLS, ROWS] at h1 h2 ⊢
  omega

theorem stop_eq (s : State) : stop s = { s with running := false, intervalId := none } := by
  unfold stop
  cases h : s.intervalId <;> simp [h]

/-- What `spawnFood` returns: the first drawn cell that is not on the snake becomes the food,
and only `food` and the draw counter change. -/
theorem spawnFood_some {rand : Draws} {fuel : Nat} {s s' : State}
    (h : spawnFood rand fuel s = some s') :
    ∃ k, k < fuel ∧ s' = { s with drawn := s.drawn + k + 1, food := rand.cell (s.drawn + k) }
      ∧ rand.cell (s.drawn + k) ∉ s.snake
      ∧ ∀ j, j < k → rand.cell (s.drawn + j) ∈ s.snake := by
  induction fuel generalizing s with
  | zero => simp [spawnFood] at h
  | succ n ih =>
    unfold spawnFood at h
    by_cases hon : rand.cell s.drawn ∈ s.snake
    · have hon2 : isOnSnake { s with drawn := s.drawn + 1 } (rand.cell s.drawn) = true :=
        (isOnSnake_iff _ _).2 hon
      simp only [hon2, if_true] at h
      obtain ⟨k, hk, hs', hfree, hbusy⟩ := ih h
      refine ⟨k + 1, by omega, ?_, ?_, ?_⟩
      · rw [hs']
        simp only [State.mk.injEq, true_and, and_true]
        constructor
        · congr 1; omega
        · omega
      · have : s.drawn + (k + 1) = s.drawn + 1 + k := by omega
        rw [this]; exact hfree
      · intro j hj
        cases j with
        | zero => simpa using hon
        | succ j =>
          have : s.drawn + (j + 1) = s.drawn + 1 + j := by omega
          rw [this]; exact hbusy j (by omega)
    · have hon2 : isOnSnake { s with drawn := s.drawn + 1 } (rand.cell s.drawn) = false :=
        (isOnSnake_false_iff _ _).2 hon
      simp only [hon2] at h
      refine ⟨0, by omega, ?_, by simpa using hon, by intro j hj; omega⟩
      simp only [Bool.false_eq_true, if_false, Option.some.injEq] at h
      rw [← h]; rfl

/-- The loop of `spawnFood` exits as soon as a drawn cell is free: if the draw `k` places
ahead is not on the snake, `k + 1` iterations are enough. -/
theorem spawnFood_returns {rand : Draws} {s : State} {k : Nat}
    (hk : rand.cell (s.drawn + k) ∉ s.snake) (fuel : Nat) (hf : k < fuel) :
    ∃ s', spawnFood rand fuel s = some s' := by
  induction k generalizing s fuel with
  | zero =>
    obtain ⟨n, rfl⟩ : ∃ n, fuel = n + 1 := ⟨fuel - 1, by omega⟩
    unfold spawnFood
    have hon2 : isOnSnake { s with drawn := s.drawn + 1 } (rand.cell s.drawn) = false :=
      (isOnSnake_false_iff _ _).2 (by simpa using hk)
    simp [hon2]
  | succ k ih =>
    obtain ⟨n, rfl⟩ : ∃ n, fuel = n + 1 := ⟨fuel - 1, by omega⟩
    unfold spawnFood
    by_cases hon : isOnSnake { s with drawn := s.drawn + 1 } (rand.cell s.drawn) = true
    · simp only [hon, if_true]
      apply ih _ n (by omega)
      have : s.drawn + 1 + k = s.drawn + (k + 1) := by omega
      simpa [this] using hk
    · simp [hon]

/-! ## The three outcomes of a tick -/

theorem newHead_some {s : State} {h : Cell} (hh : newHead s = some h) :
    ∃ head tail, s.snake = head :: tail
      ∧ h = ⟨head.x + s.nextDirection.x, head.y + s.nextDirection.y⟩ := by
  unfold newHead at hh
  cases hs : s.snake with
  | nil => simp [hs] at hh
  | cons head tail =>
    simp only [hs, List.head?_cons, Option.map_some', Option.some.injEq] at hh
    exact ⟨head, tail, rfl, hh.symm⟩

theorem food_test (h f : Cell) :
    (decide (h.x = f.x) && decide (h.y = f.y)) = true ↔ h = f := by
  cases h; cases f
  simp

/-- A tick whose new head is off the grid or on the snake is the call `gameOver()`, made after
the pending direction has been committed. -/
theorem step_collide {rand : Draws} {fuel : Nat} {s : State} {h : Cell}
    (hh : newHead s = some h) (hc : ¬ inGrid h ∨ h ∈ s.snake) :
    step rand fuel s = some (gameOver { s with direction := s.nextDirection }) := by
  obtain ⟨head, tail, hs, rfl⟩ := newHead_some hh
  cases s
  simp only at hs hc
  subst hs
  unfold step
  simp only
  split_ifs with hw hon
  · rfl
  · rfl
  · exfalso
    rcases hc with hc | hc
    · exact absurd ((hitsWall_iff _).2 hc) hw
    · exact hon ((isOnSnake_iff _ _).2 hc)
  · exfalso
    rcases hc with hc | hc
    · exact absurd ((hitsWall_iff _).2 hc) hw
    · exact hon ((isOnSnake_iff _ _).2 hc)

/-- A tick that moves onto the food: the head is prepended, the score incremented and the food
respawned. -/
theorem step_eat {rand : Draws} {fuel : Nat} {s : State} {h : Cell}
    (hh : newHead s = some h) (hg : inGrid h) (hn : h ∉ s.snake) (hf : h = s.food) :
    step rand fuel s =
      (spawnFood rand fuel
        { s with direction := s.nextDirection, snake := h :: s.snake, score := s.score + 1 }).map
        fun s4 => { s4 with log := s4.log ++ [.updateScoreUI, .playEat, .draw] } := by
  obtain ⟨head, tail, hs, rfl⟩ := newHead_some hh
  cases s
  simp only at hs hn hf
  subst hs
  unfold step
  simp only
  split_ifs with hw hon hfood
  · exact absurd hg ((hitsWall_iff _).1 hw)
  · exact absurd ((isOnSnake_iff _ _).1 hon) hn
  · rfl
  · exact absurd ((food_test _ _).2 hf) hfood

/-- A tick that moves onto a free cell other than the food: the head is prepended and the last
cell removed. -/
theorem step_move {rand : Draws} {fuel : Nat} {s : State} {h : Cell}
    (hh : newHead s = some h) (hg : inGrid h) (hn : h ∉ s.snake) (hf : h ≠ s.food) :
    step rand fuel s =
      some { s with
        direction := s.nextDirection
        snake := (h :: s.snake).dropLast
        log := s.log ++ [.draw] } := by
  obtain ⟨head, tail, hs, rfl⟩ := newHead_some hh
  cases s
  simp only at hs hn hf
  subst hs
  unfold step
  simp only
  split_ifs with hw hon hfood
  · exact absurd hg ((hitsWall_iff _).1 hw)
  · exact absurd ((isOnSnake_iff _ _).1 hon) hn
  · exact absurd ((food_test ⟨_, _⟩ _).1 hfood) hf
  · rfl

theorem gameOver_fields (s : State) :
    (gameOver s).snake = s.snake ∧ (gameOver s).food = s.food ∧ (gameOver s).score = s.score
      ∧ (gameOver s).running = false ∧ (gameOver s).intervalId = none
      ∧ (gameOver s).direction = s.direction ∧ (gameOver s).nextDirection = s.nextDirection
      ∧ (gameOver s).drawn = s.drawn ∧ (gameOver s).speed = s.speed := by
  unfold gameOver
  rw [stop_eq]
  by_cases hgt : s.score > s.highScore <;> simp [hgt]

theorem step_eat_some {rand : Draws} {fuel : Nat} {s s' : State} {h : Cell}
    (hh : newHead s = some h) (hg : inGrid h) (hn : h ∉ s.snake) (hf : h = s.food)
    (hs : step rand fuel s = some s') :
    ∃ k, k < fuel
      ∧ s' = { s with
          direction := s.nextDirection
          snake := h :: s.snake
          score := s.score + 1
          drawn := s.drawn + k + 1
          food := rand.cell (s.drawn + k)
          log := s.log ++ [.updateScoreUI, .playEat, .draw] }
      ∧ rand.cell (s.drawn + k) ∉ h :: s.snake := by
  rw [step_eat hh hg hn hf] at hs
  cases hsp : spawnFood rand fuel
      { s with direction := s.nextDirection, snake := h :: s.snake, score := s.score + 1 } with
  | none => simp [hsp] at hs
  | some s4 =>
    simp only [hsp, Option.map_some', Option.some.injEq] at hs
    obtain ⟨k, hk, hs4, hfree, -⟩ := spawnFood_some hsp
    refine ⟨k, hk, ?_, hfree⟩
    rw [← hs, hs4]

theorem step_eat_returns {rand : Draws} {s : State} {h : Cell} {k : Nat}
    (hh : newHead s = some h) (hg : inGrid h) (hn : h ∉ s.snake) (hf : h = s.food)
    (hk : rand.cell (s.drawn + k) ∉ h :: s.snake) (fuel : Nat) (hfuel : k < fuel) :
    ∃ s', step rand fuel s = some s' := by
  rw [step_eat hh hg hn hf]
  obtain ⟨s4, hs4⟩ := spawnFood_returns
    (s := { s with direction := s.nextDirection, snake := h :: s.snake, score := s.score + 1 })
    hk fuel hfuel
  exact ⟨_, by rw [hs4]; rfl⟩

/-- A tick that is not a collision changes the snake, so it is not a `gameOver()` call. -/
theorem step_free_ne_gameOver {rand : Draws} {fuel : Nat} {s : State} {h : Cell}
    (hh : newHead s = some h) (hg : inGrid h) (hn : h ∉ s.snake) :
    step rand fuel s ≠ some (gameOver { s with direction := s.nextDirection }) := by
  intro hstep
  have hsnake : (gameOver { s with direction := s.nextDirection }).snake = s.snake :=
    (gameOver_fields _).1
  by_cases hf : h = s.food
  · obtain ⟨k, -, hs', -⟩ := step_eat_some hh hg hn hf hstep
    have h2 := congrArg (fun st => st.snake.length) hs'
    simp only [hsnake, List.length_cons] at h2
    omega
  · rw [step_move hh hg hn hf, Option.some.injEq] at hstep
    have h2 := congrArg State.snake hstep
    rw [hsnake] at h2
    obtain ⟨head, tail, hsn, -⟩ := newHead_some hh
    simp only at h2
    rw [hsn, List.dropLast_cons₂] at h2
    have h3 : h = head := (List.cons.inj h2).1
    exact hn (by rw [hsn, h3]; exact List.mem_cons_self _ _)

/-! ## The tick: collisions, growth and score -/

/-- C1. For a state with a non-empty snake (so that the new head `h` = head + pending
direction exists), the tick is the call `gameOver()` if and only if `h` is outside the grid
`[0,20) x [0,20)` or is a cell of the snake as it is before the move; this includes the last
cell.  On such a tick the session is stopped, the timer cleared, and snake, food and score are
unchanged.  On every other tick the game is not ended: the running flag, the timer, the button
text, the best score and the persisted slot are left as they were, `h` becomes the head, the
only collaborator calls are those of a move (`draw`) or of a meal (`updateScoreUI`, `playEat`,
`draw`), and the tick returns (at once on a plain move, as soon as `spawnFood` draws a free
cell on a meal).  The pending direction need not be a unit vector. -/
theorem step_gameOver_iff (rand : Draws) (fuel : Nat) (s : State) (h : Cell)
    (hh : newHead s = some h) :
    (step rand fuel s = some (gameOver { s with direction := s.nextDirection })
        ↔ (¬ inGrid h ∨ h ∈ s.snake))
    ∧ (∀ hne : s.snake ≠ [], h = s.snake.getLast hne →
        step rand fuel s = some (gameOver { s with direction := s.nextDirection }))
    ∧ ((¬ inGrid h ∨ h ∈ s.snake) →
        ∃ s', step rand fuel s = some s' ∧ s'.running = false ∧ s'.intervalId = none
          ∧ s'.snake = s.snake ∧ s'.food = s.food ∧ s'.score = s.score)
    ∧ (¬ (¬ inGrid h ∨ h ∈ s.snake) →
        (∀ s', step rand fuel s = some s' →
          s'.running = s.running ∧ s'.intervalId = s.intervalId
            ∧ s'.toggleText = s.toggleText ∧ s'.highScore = s.highScore
            ∧ s'.stored = s.stored ∧ s'.snake.head? = some h
            ∧ (s'.log = s.log ++ [.draw]
                ∨ s'.log = s.log ++ [.updateScoreUI, .playEat, .draw]))
        ∧ (h ≠ s.food → ∃ s', step rand fuel s = some s')
        ∧ (∀ k, rand.cell (s.drawn + k) ∉ h :: s.snake →
            ∃ s', step rand (k + 1) s = some s')) := by
  refine ⟨⟨?_, fun hc => step_collide hh hc⟩, ?_, ?_, ?_⟩
  · intro hstep
    by_contra hc
    push_neg at hc
    exact step_free_ne_gameOver hh hc.1 hc.2 hstep
  · intro hne hlast
    exact step_collide hh (Or.inr (hlast ▸ List.getLast_mem hne))
  · intro hc
    obtain ⟨h1, h2, h3, h4, h5, -⟩ := gameOver_fields { s with direction := s.nextDirection }
    exact ⟨_, step_collide hh hc, h4, h5, h1, h2, h3⟩
  · intro hc
    push_neg at hc
    obtain ⟨head, tail, hsn, -⟩ := newHead_some hh
    refine ⟨?_, ?_, ?_⟩
    · intro s' hs'
      by_cases hf : h = s.food
      · obtain ⟨k, -, rfl, -⟩ := step_eat_some hh hc.1 hc.2 hf hs'
        exact ⟨rfl, rfl, rfl, rfl, rfl, rfl, Or.inr rfl⟩
      · rw [step_move hh hc.1 hc.2 hf, Option.some.injEq] at hs'
        rw [← hs']
        refine ⟨rfl, rfl, rfl, rfl, rfl, ?_, Or.inl rfl⟩
        simp only [hsn, List.dropLast_cons₂, List.head?_cons]
    · intro hf
      exact ⟨_, step_move hh hc.1 hc.2 hf⟩
    · intro k hk
      by_cases hf : h = s.food
      · exact step_eat_returns hh hc.1 hc.2 hf hk (k + 1) (Nat.lt_succ_self k)
      · exact ⟨_, step_move hh hc.1 hc.2 hf⟩

/-- C7. One tick on a non-empty snake: when the new head `h` is in the grid, not on the snake
and equal to the food cell, the tick (which returns as soon as `spawnFood` draws a free cell)
makes the snake one cell longer; on every other tick, a plain move or a game-over tick, the
tick returns and the length is unchanged. -/
theorem step_length (rand : Draws) (s : State) (h : Cell) (hh : newHead s = some h) :
    ((inGrid h ∧ h ∉ s.snake ∧ h = s.food) →
        (∀ fuel s', step rand fuel s = some s' → s'.snake.length = s.snake.length + 1)
        ∧ (∀ k, rand.cell (s.drawn + k) ∉ h :: s.snake →
            ∃ s', step rand (k + 1) s = some s' ∧ s'.snake.length = s.snake.length + 1))
    ∧ (¬ (inGrid h ∧ h ∉ s.snake ∧ h = s.food) →
        ∀ fuel, ∃ s', step rand fuel s = some s' ∧ s'.snake.length = s.snake.length) := by
  constructor
  · rintro ⟨hg, hn, hf⟩
    have key : ∀ fuel s', step rand fuel s = some s' →
        s'.snake.length = s.snake.length + 1 := by
      intro fuel s' hs
      obtain ⟨k, -, hs', -⟩ := step_eat_some hh hg hn hf hs
      rw [hs']; rfl
    refine ⟨key, fun k hk => ?_⟩
    obtain ⟨s', hs'⟩ := step_eat_returns hh hg hn hf hk (k + 1) (Nat.lt_succ_self k)
    exact ⟨s', hs', key _ _ hs'⟩
  · intro hne fuel
    by_cases hc : ¬ inGrid h ∨ h ∈ s.snake
    · exact ⟨_, step_collide hh hc, by rw [(gameOver_fields _).1]⟩
    · push_neg at hc
      have hf : h ≠ s.food := fun hf => hne ⟨hc.1, hc.2, hf⟩
      refine ⟨_, step_move hh hc.1 hc.2 hf, ?_⟩
      simp [List.length_dropLast]

/-- C8. When the new head `h` is in the grid, not on the snake and equal to the food cell, the
tick (which returns as soon as `spawnFood` draws a free cell) adds exactly 1 to the score and
makes the snake `h` followed by the old snake; on every other tick the tick returns and the
score is unchanged. -/
theorem step_score (rand : Draws) (s : State) (h : Cell) (hh : newHead s = some h) :
    ((inGrid h ∧ h ∉ s.snake ∧ h = s.food) →
        (∀ fuel s', step rand fuel s = some s' →
            s'.score = s.score + 1 ∧ s'.snake = h :: s.snake)
        ∧ (∀ k, rand.cell (s.drawn + k) ∉ h :: s.snake →
            ∃ s', step rand (k + 1) s = some s'
              ∧ s'.score = s.score + 1 ∧ s'.snake = h :: s.snake))
    ∧ (¬ (inGrid h ∧ h ∉ s.snake ∧ h = s.food) →
        ∀ fuel, ∃ s', step rand fuel s = some s' ∧ s'.score = s.score) := by
  constructor
  · rintro ⟨hg, hn, hf⟩
    have key : ∀ fuel s', step rand fuel s = some s' →
        s'.score = s.score + 1 ∧ s'.snake = h :: s.snake := by
      intro fuel s' hs
      obtain ⟨k, -, hs', -⟩ := step_eat_some hh hg hn hf hs
      rw [hs']; exact ⟨rfl, rfl⟩
    refine ⟨key, fun k hk => ?_⟩
    obtain ⟨s', hs'⟩ := step_eat_returns hh hg hn hf hk (k + 1) (Nat.lt_succ_self k)
    exact ⟨s', hs', key _ _ hs'⟩
  · intro hne fuel
    by_cases hc : ¬ inGrid h ∨ h ∈ s.snake
    · exact ⟨_, step_collide hh hc, by rw [(gameOver_fields _).2.2.1]⟩
    · push_neg at hc
      have hf : h ≠ s.food := fun hf => hne ⟨hc.1, hc.2, hf⟩
      exact ⟨_, step_move hh hc.1 hc.2 hf, rfl⟩

/-! ## Direction requests -/

/-- C9. `setNextDirection(d)` keeps the pending direction when `d` is the exact opposite of the
current direction, and otherwise makes `d` the pending direction, whatever the pending
direction was; current direction, snake, food and score are unchanged in both cases. -/
theorem setNextDirection_spec (d : Cell) (s : State) :
    ((d.x = -s.direction.x ∧ d.y = -s.direction.y) →
        (setNextDirection d s).nextDirection = s.nextDirection)
    ∧ (¬ (d.x = -s.direction.x ∧ d.y = -s.direction.y) →
        (setNextDirection d s).nextDirection = d)
    ∧ (setNextDirection d s).direction = s.direction
    ∧ (setNextDirection d s).snake = s.snake
    ∧ (setNextDirection d s).food = s.food
    ∧ (setNextDirection d s).score = s.score := by
  have hopp : opposite d s.direction = true ↔ (d.x = -s.direction.x ∧ d.y = -s.direction.y) := by
    unfold opposite; simp
  unfold setNextDirection
  by_cases ho : opposite d s.direction = true
  · rw [if_pos ho]
    exact ⟨fun _ => rfl, fun hn => absurd (hopp.1 ho) hn, rfl, rfl, rfl, rfl⟩
  · rw [if_neg ho]
    exact ⟨fun hy => absurd (hopp.2 hy) ho, fun _ => rfl, rfl, rfl, rfl, rfl⟩

/-! ## Best score -/

theorem gameOver_best (s : State) :
    (s.score > s.highScore →
        (gameOver s).highScore = s.score ∧ (gameOver s).stored = some s.score
          ∧ writes (gameOver s) = writes s ++ [s.score])
    ∧ (¬ s.score > s.highScore →
        (gameOver s).highScore = s.highScore ∧ (gameOver s).stored = s.stored
          ∧ writes (gameOver s) = writes s) := by
  unfold gameOver writes
  rw [stop_eq]
  by_cases hgt : s.score > s.highScore
  · simp [hgt, List.filterMap_append]
  · simp [hgt, List.filterMap_append]

theorem start_best (s : State) :
    (start s).highScore = s.highScore ∧ (start s).stored = s.stored
      ∧ writes (start s) = writes s := by
  simp [start, writes, List.filterMap_append]

theorem stop_best (s : State) :
    (stop s).highScore = s.highScore ∧ (stop s).stored = s.stored
      ∧ writes (stop s) = writes s := by
  rw [stop_eq]; simp [writes]

theorem pause_best (s : State) :
    (pause s).highScore = s.highScore ∧ (pause s).stored = s.stored
      ∧ writes (pause s) = writes s := by
  unfold pause
  rw [stop_eq]; simp [writes, List.filterMap_append]

theorem toggle_best (s : State) :
    (toggle s).highScore = s.highScore ∧ (toggle s).stored = s.stored
      ∧ writes (toggle s) = writes s := by
  unfold toggle
  split_ifs
  · exact start_best s
  · exact pause_best s
  · exact start_best s

theorem resetGame_best {rand : Draws} {fuel : Nat} {s s' : State}
    (h : resetGame rand fuel s = some s') :
    s'.highScore = s.highScore ∧ s'.stored = s.stored ∧ writes s' = writes s := by
  unfold resetGame at h
  simp only [Option.map_eq_some'] at h
  obtain ⟨s2, hsp, rfl⟩ := h
  obtain ⟨k, -, rfl, -⟩ := spawnFood_some hsp
  simp [writes, List.filterMap_append]

theorem restart_best {rand : Draws} {fuel : Nat} {s s' : State}
    (h : restart rand fuel s = some s') :
    s'.highScore = s.highScore ∧ s'.stored = s.stored ∧ writes s' = writes s := by
  unfold restart at h
  simp only [Option.map_eq_some'] at h
  obtain ⟨s2, hr, rfl⟩ := h
  obtain ⟨h1, h2, h3⟩ := resetGame_best hr
  obtain ⟨h4, h5, h6⟩ := stop_best s
  split_ifs
  · obtain ⟨h7, h8, h9⟩ := start_best s2
    exact ⟨by rw [h7, h1, h4], by rw [h8, h2, h5], by rw [h9, h3, h6]⟩
  · exact ⟨by rw [h1, h4], by rw [h2, h5], by rw [h3, h6]⟩

theorem step_best {rand : Draws} {fuel : Nat} {s s' : State}
    (h : step rand fuel s = some s') :
    s' = gameOver { s with direction := s.nextDirection }
      ∨ (s'.highScore = s.highScore ∧ s'.stored = s.stored ∧ writes s' = writes s) := by
  cases hh : newHead s with
  | none =>
    exfalso
    unfold newHead at hh
    cases hs : s.snake with
    | nil =>
      unfold step at h
      simp [hs] at h
    | cons head tail => simp [hs] at hh
  | some c =>
    by_cases hc : ¬ inGrid c ∨ c ∈ s.snake
    · left
      rw [step_collide hh hc, Option.some.injEq] at h
      exact h.symm
    · right
      push_neg at hc
      by_cases hf : c = s.food
      · obtain ⟨k, -, rfl, -⟩ := step_eat_some hh hc.1 hc.2 hf h
        simp [writes, List.filterMap_append]
      · rw [step_move hh hc.1 hc.2 hf, Option.some.injEq] at h
        rw [← h]
        simp [writes, List.filterMap_append]

/-- C10. The best score never decreases under `gameOver`, `step`, `resetGame`, the restart
handler, `toggle`, `setNextDirection` (nor under `start`, `stop`, `pause` and the speed
slider); a tick that is not the `gameOver()` call and every other operation leave the best
score and the persisted slot untouched and write nothing; `gameOver()` writes the slot exactly
when the score exceeds the best score held before the call, and then best score and persisted
value both become the score; otherwise it leaves both unchanged and writes nothing. -/
theorem highScore_changes_only_in_gameOver (rand : Draws) (fuel : Nat) (dir : Cell) (val : Int)
    (s : State) :
    (s.score > s.highScore →
        (gameOver s).highScore = s.score ∧ (gameOver s).stored = some s.score
          ∧ writes (gameOver s) = writes s ++ [s.score])
    ∧ (¬ s.score > s.highScore →
        (gameOver s).highScore = s.highScore ∧ (gameOver s).stored = s.stored
          ∧ writes (gameOver s) = writes s)
    ∧ s.highScore ≤ (gameOver s).highScore
    ∧ (∀ s', step rand fuel s = some s' →
        s.highScore ≤ s'.highScore
        ∧ (s' = gameOver { s with direction := s.nextDirection }
            ∨ (s'.highScore = s.highScore ∧ s'.stored = s.stored ∧ writes s' = writes s)))
    ∧ (∀ s', resetGame rand fuel s = some s' →
        s'.highScore = s.highScore ∧ s'.stored = s.stored ∧ writes s' = writes s)
    ∧ (∀ s', restart rand fuel s = some s' →
        s'.highScore = s.highScore ∧ s'.stored = s.stored ∧ writes s' = writes s)
    ∧ ((toggle s).highScore = s.highScore ∧ (toggle s).stored = s.stored
        ∧ writes (toggle s) = writes s)
    ∧ ((setNextDirection dir s).highScore = s.highScore
        ∧ (setNextDirection dir s).stored = s.stored
        ∧ writes (setNextDirection dir s) = writes s)
    ∧ ((start s).highScore = s.highScore ∧ (start s).stored = s.stored
        ∧ writes (start s) = writes s)
    ∧ ((stop s).highScore = s.highScore ∧ (stop s).stored = s.stored
        ∧ writes (stop s) = writes s)
    ∧ ((pause s).highScore = s.highScore ∧ (pause s).stored = s.stored
        ∧ writes (pause s) = writes s)
    ∧ ((speedInput val s).highScore = s.highScore ∧ (speedInput val s).stored = s.stored
        ∧ writes (speedInput val s) = writes s) := by
  have hmono : ∀ t : State, t.highScore ≤ (gameOver t).highScore := by
    intro t
    by_cases hgt : t.score > t.highScore
    · rw [((gameOver_best t).1 hgt).1]; omega
    · rw [((gameOver_best t).2 hgt).1]
  refine ⟨(gameOver_best s).1, (gameOver_best s).2, hmono s, ?_, fun s' h => resetGame_best h,
    fun s' h => restart_best h, toggle_best s, ?_, start_best s, stop_best s, pause_best s, ?_⟩
  · intro s' h
    rcases step_best h with hgo | hsame
    · refine ⟨?_, Or.inl hgo⟩
      rw [hgo]
      exact hmono { s with direction := s.nextDirection }
    · exact ⟨by rw [hsame.1], Or.inr hsame⟩
  · unfold setNextDirection
    split_ifs <;> simp [writes]
  · unfold speedInput
    simp only
    split_ifs
    · have := start_best { s with speed := val }
      simpa [writes] using this
    · simp [writes]

/-! ## Invariants of the reachable states -/

theorem toggle_fields (s : State) :
    (toggle s).snake = s.snake ∧ (toggle s).food = s.food
      ∧ (toggle s).nextDirection = s.nextDirection ∧ (toggle s).direction = s.direction := by
  unfold toggle pause
  rw [stop_eq]
  split_ifs <;> simp [start]

theorem speedInput_fields (val : Int) (s : State) :
    (speedInput val s).snake = s.snake ∧ (speedInput val s).food = s.food
      ∧ (speedInput val s).nextDirection = s.nextDirection
      ∧ (speedInput val s).direction = s.direction := by
  unfold speedInput
  simp only
  split_ifs <;> simp [start]

theorem setNextDirection_fields (dir : Cell) (s : State) :
    (setNextDirection dir s).snake = s.snake ∧ (setNextDirection dir s).food = s.food := by
  unfold setNextDirection
  split_ifs <;> simp

theorem resetGame_some {rand : Draws} {fuel : Nat} {s s' : State}
    (h : resetGame rand fuel s = some s') :
    s'.snake = [⟨10, 10⟩] ∧ s'.direction = ⟨1, 0⟩ ∧ s'.nextDirection = ⟨1, 0⟩ ∧ s'.score = 0
      ∧ s'.food ∉ s'.snake ∧ inGrid s'.food
      ∧ s'.running = s.running ∧ s'.intervalId = s.intervalId ∧ s'.speed = s.speed := by
  unfold resetGame at h
  simp only [Option.map_eq_some'] at h
  obtain ⟨s2, hsp, rfl⟩ := h
  obtain ⟨k, -, rfl, hfree, -⟩ := spawnFood_some hsp
  refine ⟨?_, rfl, rfl, rfl, hfree, inGrid_cell _ _, rfl, rfl, rfl⟩
  simp [COLS, ROWS]

theorem restart_some {rand : Draws} {fuel : Nat} {s s' : State}
    (h : restart rand fuel s = some s') :
    s'.snake = [⟨10, 10⟩] ∧ s'.direction = ⟨1, 0⟩ ∧ s'.nextDirection = ⟨1, 0⟩ ∧ s'.score = 0
      ∧ s'.food ∉ s'.snake ∧ inGrid s'.food
      ∧ s'.running = s.running
      ∧ s'.intervalId = (if s.running then some (sliderToMs s.speed) else none) := by
  unfold restart at h
  simp only [Option.map_eq_some'] at h
  obtain ⟨s2, hr, rfl⟩ := h
  obtain ⟨h1, h2, h3, h4, h5, h6, h7, h8, h9⟩ := resetGame_some hr
  rw [stop_eq] at h7 h8 h9
  simp only at h7 h8 h9
  by_cases hrun : s.running = true
  · simp only [hrun, if_true]
    refine ⟨h1, h2, h3, h4, h5, h6, rfl, ?_⟩
    simp [start, h9]
  · simp only [hrun, Bool.false_eq_true, if_false]
    refine ⟨h1, h2, h3, h4, h5, h6, ?_, h8⟩
    rw [h7]

theorem restart_returns {rand : Draws} {s : State} {k : Nat}
    (hk : rand.cell (s.drawn + k) ≠ ⟨10, 10⟩) (fuel : Nat) (hf : k < fuel) :
    ∃ s', restart rand fuel s = some s' := by
  unfold restart resetGame
  obtain ⟨s4, hs4⟩ := @spawnFood_returns rand
    { stop s with
      snake := [⟨((COLS / 2 : Nat) : Int), ((ROWS / 2 : Nat) : Int)⟩]
      direction := ⟨1, 0⟩
      nextDirection := ⟨1, 0⟩
      score := 0 }
    k
    (by
      rw [stop_eq]
      simpa [COLS, ROWS] using hk)
    fuel hf
  simp only [hs4, Option.map_some']
  exact ⟨_, rfl⟩

theorem step_foodFree {rand : Draws} {fuel : Nat} {s s' : State}
    (hinv : foodFree s) (h : step rand fuel s = some s') : foodFree s' := by
  cases hh : newHead s with
  | none =>
    exfalso
    unfold newHead at hh
    cases hs : s.snake with
    | nil =>
      unfold step at h
      simp [hs] at h
    | cons head tail => simp [hs] at hh
  | some c =>
    by_cases hc : ¬ inGrid c ∨ c ∈ s.snake
    · rw [step_collide hh hc, Option.some.injEq] at h
      obtain ⟨h1, h2, -⟩ := gameOver_fields { s with direction := s.nextDirection }
      unfold foodFree
      rw [← h, h1, h2]
      exact hinv
    · push_neg at hc
      by_cases hf : c = s.food
      · obtain ⟨k, -, rfl, hfree⟩ := step_eat_some hh hc.1 hc.2 hf h
        exact ⟨hfree, inGrid_cell _ _⟩
      · rw [step_move hh hc.1 hc.2 hf, Option.some.injEq] at h
        rw [← h]
        refine ⟨?_, hinv.2⟩
        intro hmem
        have hmem2 := List.mem_of_mem_dropLast hmem
        rcases List.mem_cons.1 hmem2 with heq | hin
        · exact hf heq.symm
        · exact hinv.1 hin

theorem fire_foodFree {rand : Draws} {a : Action} {s s' : State}
    (hinv : foodFree s) (h : fire rand a s = some s') : foodFree s' := by
  cases a with
  | tick fuel => exact step_foodFree hinv h
  | turn dir =>
    simp only [fire, Option.some.injEq] at h
    obtain ⟨h1, h2⟩ := setNextDirection_fields dir s
    unfold foodFree
    rw [← h, h1, h2]; exact hinv
  | toggle =>
    simp only [fire, Option.some.injEq] at h
    obtain ⟨h1, h2, -⟩ := toggle_fields s
    unfold foodFree
    rw [← h, h1, h2]; exact hinv
  | restart fuel =>
    obtain ⟨-, -, -, -, h5, h6, -⟩ := restart_some (show restart rand fuel s = some s' from h)
    exact ⟨h5, h6⟩
  | speed val =>
    simp only [fire, Option.some.injEq] at h
    obtain ⟨h1, h2, -⟩ := speedInput_fields val s
    unfold foodFree
    rw [← h, h1, h2]; exact hinv
  | refresh =>
    simp only [fire, Option.some.injEq] at h
    rw [← h]; exact hinv

/-- C5. In every state reachable from a `resetGame()` call (made on any state) through ticks,
direction requests with any argument, the toggle button, the restart handler and the speed
slider, the food cell is not a cell of the snake and lies on the 20 x 20 grid.  In particular
for `spawnFood()` over an arbitrary sequence of drawn cells: when it returns, the food is the
first drawn cell that is not on the snake, the snake is untouched, and the food is off the
snake and on the grid; and it returns as soon as a drawn cell is free. -/
theorem food_never_on_snake (rand : Draws) :
    (∀ s, Reachable rand (fun _ => True) anyAction s → s.food ∉ s.snake ∧ inGrid s.food)
    ∧ (∀ fuel s s', spawnFood rand fuel s = some s' →
        ∃ k, k < fuel ∧ s'.food = rand.cell (s.drawn + k)
          ∧ (∀ j, j < k → rand.cell (s.drawn + j) ∈ s.snake)
          ∧ s'.snake = s.snake ∧ s'.food ∉ s'.snake ∧ inGrid s'.food)
    ∧ (∀ s k, rand.cell (s.drawn + k) ∉ s.snake → ∃ s', spawnFood rand (k + 1) s = some s') := by
  refine ⟨?_, ?_, ?_⟩
  · intro s hr
    induction hr with
    | reset fuel _ hreset =>
      obtain ⟨-, -, -, -, h5, h6, -⟩ := resetGame_some hreset
      exact ⟨h5, h6⟩
    | act a _ _ hfire ih => exact fire_foodFree ih hfire
  · intro fuel s s' h
    obtain ⟨k, hk, rfl, hfree, hbusy⟩ := spawnFood_some h
    exact ⟨k, hk, rfl, hbusy, rfl, hfree, inGrid_cell _ _⟩
  · intro s k hk
    exact spawnFood_returns hk (k + 1) (Nat.lt_succ_self k)

theorem isUnit_iff (d : Cell) :
    isUnit d = true ↔ d = ⟨1, 0⟩ ∨ d = ⟨-1, 0⟩ ∨ d = ⟨0, 1⟩ ∨ d = ⟨0, -1⟩ := by
  unfold isUnit
  simp only [Bool.or_eq_true, decide_eq_true_eq, or_assoc]

theorem adjacent_of_isUnit {d : Cell} (hd : isUnit d = true) (head : Cell) :
    adjacent ⟨head.x + d.x, head.y + d.y⟩ head := by
  rcases (isUnit_iff d).1 hd with rfl | rfl | rfl | rfl <;> simp [adjacent]

theorem setNextDirection_isUnit {dir : Cell} {s : State} (hdir : isUnit dir = true)
    (hs : isUnit s.nextDirection = true) : isUnit (setNextDirection dir s).nextDirection = true := by
  unfold setNextDirection
  split_ifs
  · exact hs
  · exact hdir

theorem step_wellFormed {rand : Draws} {fuel : Nat} {s s' : State}
    (hinv : wellFormed s) (hu : isUnit s.nextDirection = true)
    (h : step rand fuel s = some s') :
    wellFormed s' ∧ isUnit s'.nextDirection = true := by
  obtain ⟨hne, hnd, hgrid, hchain⟩ := hinv
  cases hh : newHead s with
  | none =>
    exfalso
    unfold newHead at hh
    cases hs : s.snake with
    | nil => exact hne hs
    | cons head tail => simp [hs] at hh
  | some c =>
    obtain ⟨head, tail, hsn, hc_eq⟩ := newHead_some hh
    have hadj : adjacent c head := hc_eq ▸ adjacent_of_isUnit hu head
    have hchain2 : (c :: s.snake).Chain' adjacent := by
      rw [hsn, List.chain'_cons]
      exact ⟨hadj, hsn ▸ hchain⟩
    by_cases hc : ¬ inGrid c ∨ c ∈ s.snake
    · rw [step_collide hh hc, Option.some.injEq] at h
      obtain ⟨h1, -, -, -, -, -, h7, -⟩ := gameOver_fields { s with direction := s.nextDirection }
      unfold wellFormed
      rw [← h, h1, h7]
      exact ⟨⟨hne, hnd, hgrid, hchain⟩, hu⟩
    · push_neg at hc
      have hnd2 : (c :: s.snake).Nodup := List.nodup_cons.2 ⟨hc.2, hnd⟩
      have hgrid2 : ∀ x ∈ c :: s.snake, inGrid x := by
        intro x hx
        rcases List.mem_cons.1 hx with rfl | hx
        · exact hc.1
        · exact hgrid x hx
      by_cases hf : c = s.food
      · obtain ⟨k, -, rfl, -⟩ := step_eat_some hh hc.1 hc.2 hf h
        exact ⟨⟨List.cons_ne_nil _ _, hnd2, hgrid2, hchain2⟩, hu⟩
      · rw [step_move hh hc.1 hc.2 hf, Option.some.injEq] at h
        rw [← h]
        refine ⟨⟨?_, hnd2.sublist (List.dropLast_sublist _), ?_, hchain2.init⟩, hu⟩
        · simp only [hsn, List.dropLast_cons₂]
          exact List.cons_ne_nil _ _
        · intro x hx
          exact hgrid2 x (List.mem_of_mem_dropLast hx)

theorem fire_wellFormed {rand : Draws} {a : Action} {s s' : State}
    (hallowed : unitTurns a s = true)
    (hinv : wellFormed s ∧ isUnit s.nextDirection = true)
    (h : fire rand a s = some s') :
    wellFormed s' ∧ isUnit s'.nextDirection = true := by
  cases a with
  | tick fuel => exact step_wellFormed hinv.1 hinv.2 h
  | turn dir =>
    simp only [fire, Option.some.injEq] at h
    obtain ⟨h1, -⟩ := setNextDirection_fields dir s
    unfold wellFormed
    rw [← h, h1]
    exact ⟨hinv.1, setNextDirection_isUnit hallowed hinv.2⟩
  | toggle =>
    simp only [fire, Option.some.injEq] at h
    obtain ⟨h1, -, h3, -⟩ := toggle_fields s
    unfold wellFormed
    rw [← h, h1, h3]; exact hinv
  | restart fuel =>
    obtain ⟨h1, -, h3, -⟩ := restart_some (show restart rand fuel s = some s' from h)
    unfold wellFormed
    rw [h1, h3]
    refine ⟨⟨by simp, by simp, ?_, List.chain'_singleton _⟩, by decide⟩
    intro c hc
    rw [List.mem_singleton.1 hc]
    decide
  | speed val =>
    simp only [fire, Option.some.injEq] at h
    obtain ⟨h1, -, h3, -⟩ := speedInput_fields val s
    unfold wellFormed
    rw [← h, h1, h3]; exact hinv
  | refresh =>
    simp only [fire, Option.some.injEq] at h
    rw [← h]; exact hinv

/-- C6. In every state reachable from a `resetGame()` call (made on any state) through ticks
and direction requests with unit-vector arguments (and also the toggle button, the restart
handler and the speed slider), the snake is a non-empty sequence of cells without duplicates,
every cell has `0 ≤ x < 20` and `0 ≤ y < 20`, and every two consecutive cells are at Manhattan
distance exactly 1. -/
theorem snake_well_formed (rand : Draws) (s : State)
    (hr : Reachable rand (fun _ => True) unitTurns s) :
    s.snake ≠ [] ∧ s.snake.Nodup
      ∧ (∀ c ∈ s.snake, 0 ≤ c.x ∧ c.x < 20 ∧ 0 ≤ c.y ∧ c.y < 20)
      ∧ s.snake.Chain' (fun a b => (a.x - b.x).natAbs + (a.y - b.y).natAbs = 1) := by
  have key : wellFormed s ∧ isUnit s.nextDirection = true := by
    induction hr with
    | reset fuel _ hreset =>
      obtain ⟨h1, -, h3, -⟩ := resetGame_some hreset
      unfold wellFormed
      rw [h1, h3]
      refine ⟨⟨by simp, by simp, ?_, List.chain'_singleton _⟩, by decide⟩
      intro c hc
      rw [List.mem_singleton.1 hc]
      decide
    | act a _ hallowed hfire ih => exact fire_wellFormed hallowed ih hfire
  obtain ⟨⟨h1, h2, h3, h4⟩, -⟩ := key
  refine ⟨h1, h2, ?_, h4⟩
  intro c hc
  have := h3 c hc
  simpa [inGrid, COLS, ROWS] using this

/-! ## Sessions as the page produces them -/

theorem reachable_of_run {rand : Draws} {init : State → Prop} {allowed : Action → State → Bool}
    (acts : List Action) {s s' : State} (hr : Reachable rand init allowed s)
    (h : run rand allowed acts s = some s') : Reachable rand init allowed s' := by
  induction acts generalizing s with
  | nil =>
    simp only [run, Option.some.injEq] at h
    exact h ▸ hr
  | cons a rest ih =>
    unfold run at h
    by_cases ha : allowed a s = true
    · rw [if_pos ha] at h
      cases hf : fire rand a s with
      | none => simp [hf] at h
      | some s1 =>
        rw [hf] at h
        exact ih (Reachable.act a hr ha hf) h
    · rw [if_neg ha] at h
      exact absurd h (by simp)

theorem reachable_of_play {rand : Draws} (acts : List Action) {s : State}
    (h : play rand acts = some s) : Reachable rand isBoot asScripted s := by
  unfold play pageLoad at h
  cases h0 : resetGame rand 1 (boot none 10) with
  | none => simp [h0] at h
  | some s1 =>
    rw [h0] at h
    exact reachable_of_run acts
      (Reachable.act .refresh (Reachable.reset 1 ⟨none, 10, rfl⟩ h0) rfl rfl) h

theorem exists_of_map {α : Type} {o : Option State} {f : State → α} {v : α}
    (h : o.map f = some v) : ∃ s, o = some s ∧ f s = v := by
  cases o with
  | none => simp at h
  | some s => exact ⟨s, rfl, by simpa using h⟩

/-! ## Restart -/

/-- C3, failing instance.  `midGame` is a running session the page reaches; the restart
handler leaves it running with an active timer, not idle. -/
theorem restart_midGame_still_running :
    Reachable drawsAhead isBoot asScripted midGame ∧ midGame.running = true
      ∧ ∃ s', restart drawsAhead 1 midGame = some s'
          ∧ s'.running = true ∧ s'.intervalId = some 140 := by
  refine ⟨reachable_of_play [.toggle, .tick 1, .tick 1, .turn ⟨0, 1⟩] (by decide),
    rfl, ?_⟩
  obtain ⟨s', h1, h2⟩ := exists_of_map
    (o := restart drawsAhead 1 midGame) (f := fun t => (t.running, t.intervalId))
    (v := (true, some 140)) (by decide)
  exact ⟨s', h1, (Prod.mk.inj h2).1, (Prod.mk.inj h2).2⟩

/-- C3, amended.  For every running session, the restart handler (which returns as soon as
`spawnFood` draws a cell other than `(10,10)`) yields the initial layout, snake `[(10,10)]`,
current and pending direction `(1,0)`, score 0, with the best score unchanged, and the session
is running again on a newly created timer whose period is that of the speed slider. -/
theorem restart_running (rand : Draws) (s : State) (hrun : s.running = true) :
    (∀ fuel s', restart rand fuel s = some s' →
        s'.snake = [⟨10, 10⟩] ∧ s'.direction = ⟨1, 0⟩ ∧ s'.nextDirection = ⟨1, 0⟩
          ∧ s'.score = 0 ∧ s'.highScore = s.highScore
          ∧ s'.running = true ∧ s'.intervalId = some (sliderToMs s.speed))
    ∧ (∀ k, rand.cell (s.drawn + k) ≠ ⟨10, 10⟩ → ∃ s', restart rand (k + 1) s = some s') := by
  constructor
  · intro fuel s' h
    obtain ⟨h1, h2, h3, h4, -, -, h7, h8⟩ := restart_some h
    rw [hrun] at h7
    rw [if_pos hrun] at h8
    exact ⟨h1, h2, h3, h4, (restart_best h).1, h7, h8⟩
  · intro k hk
    exact restart_returns hk (k + 1) (Nat.lt_succ_self k)

/-! ## Game over, toggle and the reversal rule -/

/-- C2, failing instance.  In every state reached by `gameOver()` the toggle button starts the
session: `running` becomes true and a timer is created.  Concretely the page reaches `atWall`,
whose next tick is the `gameOver()` call giving `crashed`; after a request to turn up, the
toggle button and one tick, the session is running and the snake has moved to `(19,9)`, with
no `resetGame()` in between. -/
theorem toggle_after_gameOver_resumes :
    (∀ s, (toggle (gameOver s)).running = true
        ∧ (toggle (gameOver s)).intervalId = some (sliderToMs s.speed))
    ∧ play drawsCorner ([.toggle] ++ List.replicate 9 (.tick 1)) = some atWall
    ∧ step drawsCorner 1 atWall = some crashed
    ∧ crashed = gameOver { atWall with direction := atWall.nextDirection }
    ∧ crashed.running = false ∧ crashed.intervalId = none
    ∧ (toggle crashed).running = true ∧ (toggle crashed).intervalId = some 140
    ∧ ∃ s', run drawsCorner asScripted [.turn ⟨0, -1⟩, .toggle, .tick 1] crashed = some s'
        ∧ s'.running = true ∧ s'.snake = [⟨19, 9⟩] := by
  refine ⟨?_, by decide, by decide, by decide, rfl, rfl, by decide, by decide, ?_⟩
  · intro s
    obtain ⟨-, -, -, h4, -, -, -, -, h9⟩ := gameOver_fields s
    unfold toggle
    split_ifs with hfirst hrun
    · exact ⟨rfl, by simp [start, h9]⟩
    · rw [h4] at hrun
      exact absurd hrun (by simp)
    · exact ⟨rfl, by simp [start, h9]⟩
  · obtain ⟨s', h1, h2⟩ := exists_of_map
      (o := run drawsCorner asScripted [.turn ⟨0, -1⟩, .toggle, .tick 1] crashed)
      (f := fun t => (t.running, t.snake)) (v := (true, [⟨19, 9⟩])) (by decide)
    exact ⟨s', h1, (Prod.mk.inj h2).1, (Prod.mk.inj h2).2⟩

/-- C4, failing instance.  The page reaches the running session `reversing` (a tick into the
wall committed the direction "right" without moving the snake, which had last moved up; the
request "down" was then accepted and the toggle button restarted the timer).  Its snake has
two cells and the new head of the next tick is the second cell `(19,10)`, so that tick is a
self-collision. -/
theorem reversal_after_gameOver :
    play drawsAhead reversalTrace = some reversing
      ∧ Reachable drawsAhead isBoot asScripted reversing
      ∧ reversing.running = true ∧ reversing.intervalId = some 140
      ∧ reversing.snake.length = 2
      ∧ newHead reversing = some ⟨19, 10⟩
      ∧ reversing.snake.get? 1 = some ⟨19, 10⟩
      ∧ step drawsAhead 1 reversing
          = some (gameOver { reversing with direction := reversing.nextDirection }) := by
  have hplay : play drawsAhead reversalTrace = some reversing := by decide
  exact ⟨hplay, reachable_of_play reversalTrace hplay, rfl, rfl, rfl, by decide, rfl, by decide⟩

/-! ## Instances on the sample sessions -/

/-- Instance of `step_gameOver_iff`: the curled snake `tailChase` moves onto its own last cell
`(6,5)`, and the tick ends the game leaving snake, food and score as they were; the running
session `midGame` moves to the free cell `(12,11)`, and the tick returns a session that is
still running on its timer, with head `(12,11)` and a single `draw` call. -/
theorem step_gameOver_iff_witness :
    (newHead tailChase = some ⟨6, 5⟩
      ∧ ∃ s', step drawsCorner 0 tailChase = some s' ∧ s'.running = false
          ∧ s'.intervalId = none ∧ s'.snake = tailChase.snake ∧ s'.food = tailChase.food
          ∧ s'.score = tailChase.score)
    ∧ (newHead midGame = some ⟨12, 11⟩
      ∧ ¬ (¬ inGrid ⟨12, 11⟩ ∨ (⟨12, 11⟩ : Cell) ∈ midGame.snake)
      ∧ ∃ s', step drawsAhead 0 midGame = some s' ∧ s'.running = true
          ∧ s'.intervalId = some 140 ∧ s'.snake.head? = some ⟨12, 11⟩
          ∧ s'.log = midGame.log ++ [.draw]) :=
  ⟨⟨by decide,
    (step_gameOver_iff drawsCorner 0 tailChase ⟨6, 5⟩ (by decide)).2.2.1 (Or.inr (by decide))⟩,
   by decide, by decide,
   have hfree := (step_gameOver_iff drawsAhead 0 midGame ⟨12, 11⟩ (by decide)).2.2.2 (by decide)
   (hfree.2.1 (by decide)).elim fun s' hs' =>
     ⟨s', hs', (hfree.1 s' hs').1, (hfree.1 s' hs').2.1, (hfree.1 s' hs').2.2.2.2.2.1,
       ((hfree.1 s' hs').2.2.2.2.2.2).resolve_right (fun hlog => by
         have hmove : step drawsAhead 0 midGame = some
             { midGame with
               direction := ⟨0, 1⟩
               snake := [⟨12, 11⟩, ⟨12, 10⟩]
               log := midGame.log ++ [.draw] } := by decide
         rw [hmove, Option.some.injEq] at hs'
         rw [← hs'] at hlog
         exact absurd hlog (by decide))⟩⟩

/-- Instance of `step_length`: the snake `[(5,5)]` eats the food at `(6,5)` and has length 2. -/
theorem step_length_witness :
    newHead beforeFood = some ⟨6, 5⟩
      ∧ (inGrid ⟨6, 5⟩ ∧ (⟨6, 5⟩ : Cell) ∉ beforeFood.snake ∧ ⟨6, 5⟩ = beforeFood.food)
      ∧ ∃ s', step drawsCorner 1 beforeFood = some s' ∧ s'.snake.length = 2 :=
  ⟨by decide, by decide,
    ((step_length drawsCorner beforeFood ⟨6, 5⟩ (by decide)).1 (by decide)).2 0 (by decide)⟩

/-- Instance of `step_score`, the scenario of the specification: snake `[(5,5)]` heading
`(1,0)` with the food at `(6,5)`; one tick gives head `(6,5)`, score 1 and length 2. -/
theorem step_score_witness :
    beforeFood.snake = [⟨5, 5⟩] ∧ beforeFood.nextDirection = ⟨1, 0⟩ ∧ beforeFood.food = ⟨6, 5⟩
      ∧ beforeFood.score = 0
      ∧ ∃ s', step drawsCorner 1 beforeFood = some s' ∧ s'.score = 1
          ∧ s'.snake = [⟨6, 5⟩, ⟨5, 5⟩] :=
  ⟨rfl, rfl, rfl, rfl,
    ((step_score drawsCorner beforeFood ⟨6, 5⟩ (by decide)).1 (by decide)).2 0 (by decide)⟩

/-- Instance of `setNextDirection_spec`: in `midGame`, heading right with "down" pending, a
request to go left is ignored. -/
theorem setNextDirection_spec_witness :
    ((-1 : Int) = -midGame.direction.x ∧ (0 : Int) = -midGame.direction.y)
      ∧ (setNextDirection ⟨-1, 0⟩ midGame).nextDirection = ⟨0, 1⟩ :=
  ⟨by decide, (setNextDirection_spec ⟨-1, 0⟩ midGame).1 (by decide)⟩

/-- Instance of `highScore_changes_only_in_gameOver`: `gameOver()` on `midGame` (score 1, best
score 0) sets the best score and the persisted slot to 1 with a single write. -/
theorem highScore_changes_only_in_gameOver_witness :
    midGame.score > midGame.highScore
      ∧ (gameOver midGame).highScore = 1 ∧ (gameOver midGame).stored = some 1
      ∧ writes (gameOver midGame) = [1] :=
  ⟨by decide,
    (highScore_changes_only_in_gameOver drawsAhead 1 ⟨0, 1⟩ 10 midGame).1 (by decide)⟩

/-- Instance of `restart_running` on `midGame`. -/
theorem restart_running_witness :
    midGame.running = true
      ∧ drawsAhead.cell (midGame.drawn + 0) ≠ ⟨10, 10⟩
      ∧ ∃ s', restart drawsAhead 1 midGame = some s' :=
  ⟨rfl, by decide, (restart_running drawsAhead midGame rfl).2 0 (by decide)⟩

/-- Instance of `food_never_on_snake`.  With `drawsBusy` the first `resetGame()` rejects its
first draw (one iteration is not enough, two are); the session `busy`, reached through a
restart, two meals whose respawns reject draws, a turn and a plain move, has its food off its
three-cell snake and on the grid.  On `crowded`, `spawnFood` rejects three draws that are on
the snake and takes the fourth, `(0,0)`. -/
theorem food_never_on_snake_witness :
    resetGame drawsBusy 1 (boot none 10) = none
    ∧ Reachable drawsBusy (fun _ => True) anyAction busy
    ∧ (busy.food ∉ busy.snake ∧ inGrid busy.food)
    ∧ spawnFood drawsBusy 4 crowded = some { crowded with drawn := 8, food := ⟨0, 0⟩ }
    ∧ drawsBusy.cell (crowded.drawn + 3) ∉ crowded.snake
    ∧ ∃ s', spawnFood drawsBusy 4 crowded = some s'
        ∧ ∃ k, k < 4 ∧ s'.food = drawsBusy.cell (crowded.drawn + k)
          ∧ (∀ j, j < k → drawsBusy.cell (crowded.drawn + j) ∈ crowded.snake)
          ∧ s'.snake = crowded.snake ∧ s'.food ∉ s'.snake ∧ inGrid s'.food :=
  have h : Reachable drawsBusy (fun _ => True) anyAction busy :=
    reachable_of_run busyTrace
      (Reachable.reset 2 trivial
        (show resetGame drawsBusy 2 (boot none 10)
            = some { fresh with food := ⟨11, 10⟩, drawn := 2, log := [.draw, .updateScoreUI] }
          by decide))
      (by decide)
  ⟨by decide, h, (food_never_on_snake drawsBusy).1 busy h, by decide, by decide,
    ((food_never_on_snake drawsBusy).2.2 crowded 3 (by decide)).elim fun s' hs' =>
      ⟨s', hs', (food_never_on_snake drawsBusy).2.1 4 crowded s' hs'⟩⟩

/-- Instance of `snake_well_formed` on `midGame`. -/
theorem snake_well_formed_witness :
    Reachable drawsAhead (fun _ => True) unitTurns midGame
      ∧ midGame.snake ≠ [] ∧ midGame.snake.Nodup
      ∧ (∀ c ∈ midGame.snake, 0 ≤ c.x ∧ c.x < 20 ∧ 0 ≤ c.y ∧ c.y < 20)
      ∧ midGame.snake.Chain' (fun a b => (a.x - b.x).natAbs + (a.y - b.y).natAbs = 1) :=
  have h : Reachable drawsAhead (fun _ => True) unitTurns midGame :=
    reachable_of_run [.refresh, .toggle, .tick 1, .tick 1, .turn ⟨0, 1⟩]
      (Reachable.reset 1 trivial
        (show resetGame drawsAhead 1 (boot none 10)
            = some { fresh with food := ⟨11, 10⟩, log := [.draw, .updateScoreUI] }
          by decide))
      (by decide)
  ⟨h, snake_well_formed drawsAhead midGame h⟩

/-! ## The reversal rule on sessions that are not resumed after a game over

The failing instance of C4 goes through the toggle button on a session that ended in game
over.  On all other sessions the rule of `setNextDirection` does what its comment says. -/

theorem opposite_self_of_isUnit {d : Cell} (hd : isUnit d = true) : opposite d d = false := by
  rcases (isUnit_iff d).1 hd with rfl | rfl | rfl | rfl <;> decide

theorem aligned_of_snake_eq {s t : State} (hs : t.snake = s.snake) (hd : t.direction = s.direction)
    (h : aligned s) : aligned t := by
  unfold aligned at h ⊢
  rw [hs, hd]
  exact h

theorem aligned_of_single {s : State} {c : Cell} (hs : s.snake = [c]) : aligned s := by
  intro h c2 rest hsn
  rw [hs] at hsn
  simp at hsn

/-- After a tick both directions are the committed unit vector, and the current direction is
the last move of the head unless the tick ended the game on a snake of two or more cells. -/
theorem step_reversal_inv {rand : Draws} {fuel : Nat} {s s' : State}
    (hnext : isUnit s.nextDirection = true)
    (h : step rand fuel s = some s') :
    isUnit s'.direction = true ∧ isUnit s'.nextDirection = true
      ∧ opposite s'.nextDirection s'.direction = false
      ∧ (aligned s' ∨ gameOverShown s' = true) := by
  cases hh : newHead s with
  | none =>
    exfalso
    unfold newHead at hh
    cases hs : s.snake with
    | nil =>
      unfold step at h
      simp [hs] at h
    | cons head tail => simp [hs] at hh
  | some c =>
    obtain ⟨head, tail, hsn, hc_eq⟩ := newHead_some hh
    by_cases hc : ¬ inGrid c ∨ c ∈ s.snake
    · rw [step_collide hh hc, Option.some.injEq] at h
      obtain ⟨h1, -, -, h4, -, h6, h7, -⟩ := gameOver_fields { s with direction := s.nextDirection }
      have htext : (gameOver { s with direction := s.nextDirection }).toggleText = .start := by
        unfold gameOver
        rfl
      rw [← h, h6, h7]
      refine ⟨hnext, hnext, opposite_self_of_isUnit hnext, ?_⟩
      by_cases hlen : 2 ≤ s.snake.length
      · right
        unfold gameOverShown
        rw [h4, htext, h1]
        simp [hlen]
      · left
        intro a b rest hsnake
        rw [h1] at hsnake
        simp only at hsnake
        rw [hsnake] at hlen
        simp at hlen
    · push_neg at hc
      have hal2 : ∀ t : State, t.direction = s.nextDirection →
          (t.snake = c :: s.snake ∨ t.snake = (c :: s.snake).dropLast) → aligned t := by
        intro t hd hsnake a b rest hab
        have hcons : a = c ∧ b = head := by
          rcases hsnake with hsnake | hsnake
          · rw [hsnake, hsn] at hab
            simp only [List.cons.injEq] at hab
            exact ⟨hab.1.symm, hab.2.1.symm⟩
          · rw [hsnake, hsn, List.dropLast_cons₂] at hab
            cases tail with
            | nil => simp at hab
            | cons t2 tail2 =>
              rw [List.dropLast_cons₂] at hab
              simp only [List.cons.injEq] at hab
              exact ⟨hab.1.symm, hab.2.1.symm⟩
        rw [hd, hcons.1, hcons.2, hc_eq]
        simp
      by_cases hf : c = s.food
      · obtain ⟨k, -, rfl, -⟩ := step_eat_some hh hc.1 hc.2 hf h
        exact ⟨hnext, hnext, opposite_self_of_isUnit hnext, Or.inl (hal2 _ rfl (Or.inl rfl))⟩
      · rw [step_move hh hc.1 hc.2 hf, Option.some.injEq] at h
        rw [← h]
        exact ⟨hnext, hnext, opposite_self_of_isUnit hnext, Or.inl (hal2 _ rfl (Or.inr rfl))⟩

/-- On sessions in which the toggle button is never used after a game over, the reversal rule
holds: in every running state the page reaches, the new head that `step()` computes is not
the second cell of the snake. -/
theorem reversal_rule_without_resume (rand : Draws) (s : State)
    (hr : Reachable rand isBoot noResume s) (hrun : s.running = true)
    (h c : Cell) (rest : List Cell) (hs : s.snake = h :: c :: rest) :
    newHead s ≠ some c := by
  have key : isUnit s.direction = true ∧ isUnit s.nextDirection = true
      ∧ opposite s.nextDirection s.direction = false
      ∧ (aligned s ∨ gameOverShown s = true) := by
    clear hrun hs
    induction hr with
    | reset fuel _ hreset =>
      obtain ⟨h1, h2, h3, -⟩ := resetGame_some hreset
      rw [h2, h3]
      exact ⟨by decide, by decide, by decide, Or.inl (aligned_of_single h1)⟩
    | @act s s' a _ hallowed hfire ih =>
      obtain ⟨hdir, hnext, hopp, hstate⟩ := ih
      cases a with
      | tick fuel => exact step_reversal_inv hnext hfire
      | turn dir =>
        have hunit : isUnit dir = true := by
          simpa [noResume, asScripted] using hallowed
        simp only [fire, Option.some.injEq] at hfire
        rw [← hfire]
        unfold setNextDirection
        by_cases ho : opposite dir s.direction = true
        · rw [if_pos ho]
          exact ⟨hdir, hnext, hopp, hstate⟩
        · rw [if_neg ho]
          refine ⟨hdir, hunit, by simpa using ho, ?_⟩
          rcases hstate with hal | hgo
          · exact Or.inl (aligned_of_snake_eq rfl rfl hal)
          · exact Or.inr hgo
      | toggle =>
        have hnot : gameOverShown s = false := by
          simpa [noResume] using hallowed
        have hal : aligned s := by
          rcases hstate with hal | hgo
          · exact hal
          · rw [hnot] at hgo
            exact absurd hgo (by simp)
        simp only [fire, Option.some.injEq] at hfire
        obtain ⟨h1, -, h3, h4⟩ := toggle_fields s
        rw [← hfire, h3, h4]
        exact ⟨hdir, hnext, hopp, Or.inl (aligned_of_snake_eq h1 h4 hal)⟩
      | restart fuel =>
        obtain ⟨h1, h2, h3, -⟩ := restart_some (show restart rand fuel s = some s' from hfire)
        rw [h2, h3]
        exact ⟨by decide, by decide, by decide, Or.inl (aligned_of_single h1)⟩
      | speed val =>
        simp only [fire, Option.some.injEq] at hfire
        obtain ⟨h1, -, h3, h4⟩ := speedInput_fields val s
        rw [← hfire, h3, h4]
        refine ⟨hdir, hnext, hopp, ?_⟩
        rcases hstate with hal | hgo
        · exact Or.inl (aligned_of_snake_eq h1 h4 hal)
        · right
          have hstop : s.running = false := by
            unfold gameOverShown at hgo
            simp only [Bool.and_eq_true, Bool.not_eq_true', decide_eq_true_eq] at hgo
            exact hgo.1.1
          have hsame : speedInput val s = { s with speed := val } := by
            unfold speedInput
            simp [hstop]
          rw [hsame]
          exact hgo
      | refresh =>
        simp only [fire, Option.some.injEq] at hfire
        rw [← hfire]
        exact ⟨hdir, hnext, hopp, hstate⟩
  obtain ⟨-, -, hopp, hstate⟩ := key
  have hal : aligned s := by
    rcases hstate with hal | hgo
    · exact hal
    · unfold gameOverShown at hgo
      simp [hrun] at hgo
  have hdir := hal h c rest hs
  intro hnew
  unfold newHead at hnew
  rw [hs] at hnew
  simp only [List.head?_cons, Option.map_some', Option.some.injEq] at hnew
  have hx : h.x + s.nextDirection.x = c.x := congrArg Cell.x hnew
  have hy : h.y + s.nextDirection.y = c.y := congrArg Cell.y hnew
  have : opposite s.nextDirection s.direction = true := by
    unfold opposite
    rw [hdir]
    simp only [Bool.and_eq_true, decide_eq_true_eq]
    constructor <;> omega
  rw [hopp] at this
  exact absurd this (by simp)

/-- Instance of `reversal_rule_without_resume` on `midGame`. -/
theorem reversal_rule_without_resume_witness :
    Reachable drawsAhead isBoot noResume midGame ∧ midGame.running = true
      ∧ newHead midGame ≠ some ⟨11, 10⟩ :=
  have h : Reachable drawsAhead isBoot noResume midGame :=
    reachable_of_run [.refresh, .toggle, .tick 1, .tick 1, .turn ⟨0, 1⟩]
      (Reachable.reset 1 ⟨none, 10, rfl⟩
        (show resetGame drawsAhead 1 (boot none 10)
            = some { fresh with food := ⟨11, 10⟩, log := [.draw, .updateScoreUI] }
          by decide))
      (by decide)
  ⟨h, rfl, reversal_rule_without_resume drawsAhead midGame h rfl ⟨12, 10⟩ ⟨11, 10⟩ [] rfl⟩

end Snake
